import Mathlib

/-!
Verification of the voice-service core of the speech bot repository.

The embedding follows `src/voice_service.py` and `src/config.py`:

* `split_text` embeds `VoiceService.split_text` (text segmenter, lines 76-116),
  working on `List Char` so that Python string slicing, `rfind` and `strip`
  are explicit.
* `preprocess_audio`, `split_audio_into_chunks` and `transcribe_audio` embed
  the audio pipeline (lines 20-215).  Filesystem facts and the remote
  transcription service are abstracted into an environment record
  `AudioEnv`: byte sizes, decode/export success flags, decoded durations and
  the per-chunk remote results are inputs; the model computes the returned
  text, the ordered trace of remote chunk calls, and the derived files still
  on disk when the call returns.
-/

namespace SpeechBot

/-- Python whitespace recognised by `str.strip()` (ASCII range, which is all
the repository's inputs need). -/
def isPySpace (c : Char) : Bool :=
  c = ' ' || c = '\t' || c = '\n' || c = '\r' || c = '\x0b' || c = '\x0c'

/-- Python `s.strip()`: drop whitespace from both ends. -/
def pyStrip (s : List Char) : List Char :=
  ((s.dropWhile isPySpace).reverse.dropWhile isPySpace).reverse

/-- Python `s.rfind(c)`: index of the last occurrence of `c`, or `-1`. -/
def rfind (s : List Char) (c : Char) : Int :=
  match s with
  | [] => -1
  | a :: rest =>
    if 0 ≤ rfind rest c then rfind rest c + 1 else if a = c then 0 else -1

/-- `self.max_text_length = 4000` (voice_service.py line 18). -/
def maxTextLength : Nat := 4000

/-- The sentence terminators scanned by `split_text` (line 93). -/
def sentenceEndings : List Char := ['.', '!', '?']

/-- Lines 94-99: fold of `rfind` over the three endings, starting from `-1`,
keeping the largest position. -/
def lastSentenceEnd (s : List Char) : Int :=
  sentenceEndings.foldl (fun acc c => max acc (rfind s c)) (-1)

/-- Lines 92-111: the split point chosen inside one iteration of the
`split_text` loop, as a function of the current window
`chunk_text = remaining_text[:max_text_length]`. -/
def splitPoint (chunk : List Char) : Nat :=
  let lastEnd := lastSentenceEnd chunk
  if (maxTextLength : Int) / 2 < lastEnd then
    (lastEnd + 1).toNat
  else
    let lastSpace := rfind chunk ' '
    if (maxTextLength : Int) - 200 < lastSpace then
      lastSpace.toNat
    else
      maxTextLength

/-- Lines 84-114: the `while remaining_text:` loop of `split_text`. -/
def splitTextGo (remaining : List Char) : List (List Char) :=
  if remaining.isEmpty then []
  else if remaining.length ≤ maxTextLength then [remaining]
  else
    let sp := splitPoint (remaining.take maxTextLength)
    pyStrip (remaining.take sp) :: splitTextGo (pyStrip (remaining.drop sp))
termination_by remaining.length
decreasing_by
  have key : ∀ l : List Char, (pyStrip l).length ≤ l.length := by
    intro l
    have ha : (l.dropWhile isPySpace).length ≤ l.length :=
      (List.dropWhile_sublist _).length_le
    have hb : ((l.dropWhile isPySpace).reverse.dropWhile isPySpace).length
        ≤ (l.dropWhile isPySpace).reverse.length :=
      (List.dropWhile_sublist _).length_le
    unfold pyStrip
    simp only [List.length_reverse] at *
    omega
  have h2 : 1 ≤ splitPoint (remaining.take maxTextLength) := by
    simp only [splitPoint, maxTextLength]
    split
    · omega
    · split
      · omega
      · omega
  have h1 := key (remaining.drop (splitPoint (remaining.take maxTextLength)))
  simp only [List.length_drop] at h1
  omega

/-- `VoiceService.split_text` (lines 76-116). -/
def split_text (text : List Char) : List (List Char) :=
  if text.length ≤ maxTextLength then [text]
  else splitTextGo text

/-- A sentence terminator in the sense of `split_text` (line 93). -/
def isTermCh (a : Char) : Prop := a = '.' ∨ a = '!' ∨ a = '?'

/-- Position `i` carries the last sentence terminator of `s`. -/
def IsLastTerm (s : List Char) (i : Nat) : Prop :=
  i < s.length ∧ isTermCh (s.getD i ' ') ∧
    ∀ j, i < j → j < s.length → ¬ isTermCh (s.getD j ' ')

/-- Position `k` carries the last space of `s`. -/
def IsLastSpace (s : List Char) (k : Nat) : Prop :=
  k < s.length ∧ s.getD k ' ' = ' ' ∧
    ∀ j, k < j → j < s.length → s.getD j ' ' ≠ ' '

/-- A string with no leading and no trailing Python whitespace. -/
def Stripped (l : List Char) : Prop :=
  (∀ a ∈ l.head?, isPySpace a = false) ∧ (∀ a ∈ l.getLast?, isPySpace a = false)

/-! ### Audio pipeline model -/

/-- One mebibyte: sizes in the source are compared as `bytes / (1024 * 1024)`
against integer megabyte thresholds, which is equivalent to comparing the
byte count against `threshold * MB`. -/
def MB : Nat := 1048576

/-- `MAX_AUDIO_SIZE_MB = 25` (config.py line 18). -/
def MAX_AUDIO_SIZE_MB : Nat := 25

/-- `chunk_duration_ms = 300000`, the default chunk window (line 118). -/
def chunkDurationMs : Nat := 300000

/-- Which compression operating point `preprocess_audio` finally wrote. -/
inductive Mode
  | normal
  | aggressive
deriving DecidableEq, Repr

/-- Environment of one `transcribe_audio` call: everything the filesystem,
the audio decoder and the remote transcription service contribute.  Sizes
are in bytes, durations in milliseconds. -/
structure AudioEnv where
  /-- byte size of the caller-supplied input file -/
  origSize : Nat
  /-- `AudioSegment.from_file` succeeds on the input file -/
  decodeOk : Bool
  /-- the normal-mode `export` call succeeds -/
  exportNormalOk : Bool
  /-- the aggressive-mode `export` call succeeds -/
  exportAggOk : Bool
  /-- byte size of the normal-mode output file -/
  normalSize : Nat
  /-- byte size of the aggressive-mode output file -/
  aggSize : Nat
  /-- decoded duration (ms) of the original asset -/
  durOrig : Nat
  /-- decoded duration (ms) of the normal-mode compacted asset -/
  durNormal : Nat
  /-- decoded duration (ms) of the aggressive-mode compacted asset -/
  durAgg : Nat
  /-- decoding the working asset inside `split_audio_into_chunks` succeeds -/
  splitDecodeOk : Bool
  /-- first chunk ordinal whose `export` raises inside the split loop, if any -/
  chunkExportFail : Option Nat
  /-- byte size of the exported chunk file with ordinal `i` -/
  chunkSize : Nat → Nat
  /-- remote transcription result for chunk ordinal `i`
  (`none` models the call raising an exception) -/
  chunkText : Nat → Option String
  /-- remote transcription result for the whole working asset on the
  direct path (`none` models the call raising an exception) -/
  wholeText : Option String

/-- Line 147: `aggressive = original_size_mb > 50`. -/
def aggFlag (env : AudioEnv) : Bool :=
  decide (50 * MB < env.origSize)

/-- `VoiceService.preprocess_audio` (lines 20-74).  The returned value is the
operating point of the output file finally written (`some m`, the function
returning `True`), or `none` when any decode/encode step raised and the
function returned `False`.  The recursive escalation call of line 69 is
unfolded: it re-runs the body with `aggressive_compress = True`. -/
def preprocess_audio (env : AudioEnv) (aggressive_compress : Bool) : Option Mode :=
  if !env.decodeOk then none
  else if aggressive_compress then
    if env.exportAggOk then some Mode.aggressive else none
  else if !env.exportNormalOk then none
  else if 18 * MB < env.normalSize then
    -- line 69: return self.preprocess_audio(input, output, aggressive_compress=True)
    if !env.decodeOk then none
    else if env.exportAggOk then some Mode.aggressive else none
  else some Mode.normal

/-- Whether `preprocess_audio` wrote (at least once) to `output_path`:
a failed export is modelled as leaving no file, and the escalation retry
overwrites the normal-mode file when it succeeds. -/
def processedWritten (env : AudioEnv) (aggressive_compress : Bool) : Bool :=
  env.decodeOk && (if aggressive_compress then env.exportAggOk else env.exportNormalOk)

/-- Byte size of the working asset after the compaction step of
`transcribe_audio` (line 152): the compacted file when preprocessing
succeeded, the original file otherwise (line 150). -/
def workSize (env : AudioEnv) : Option Mode → Nat
  | some Mode.normal => env.normalSize
  | some Mode.aggressive => env.aggSize
  | none => env.origSize

/-- Decoded duration of the working asset (the `len(audio)` that
`split_audio_into_chunks` sees at line 121). -/
def workDuration (env : AudioEnv) : Option Mode → Nat
  | some Mode.normal => env.durNormal
  | some Mode.aggressive => env.durAgg
  | none => env.durOrig

/-- Fuel-driven body of Python `range(start, stop, step)` for `step > 0`;
`stop - start` units of fuel always suffice since each iteration advances
`start` by `step ≥ 1`. -/
def rangeStepGo : Nat → Nat → Nat → Nat → List Nat
  | _, _, _, 0 => []
  | start, stop, s, fuel + 1 =>
    if start < stop then start :: rangeStepGo (start + s) stop s fuel else []

/-- Python `range(start, stop, step)` for `step > 0` (line 125). -/
def rangeStep (start stop s : Nat) : List Nat :=
  rangeStepGo start stop s (stop - start)

/-- The chunk ordinals produced by the loop of lines 125-129: offsets
`range(0, len(audio), chunk_duration_ms)`, each mapped to the ordinal
`i // chunk_duration_ms` used in the chunk file name. -/
def chunkOrdinals (durationMs : Nat) : List Nat :=
  (rangeStep 0 durationMs chunkDurationMs).map (fun i => i / chunkDurationMs)

/-- `ceil(durationMs / chunkDurationMs)`: the chunk count stated by the
spec. -/
def numChunks (durationMs : Nat) : Nat :=
  (durationMs + chunkDurationMs - 1) / chunkDurationMs

/-- Outcome of `split_audio_into_chunks`: the list returned to the caller
and the chunk files actually written to disk (they differ when an export
raises partway: the written files are no longer referenced by anything). -/
structure SplitResult where
  returned : List Nat
  filesCreated : List Nat
deriving DecidableEq, Repr

/-- `VoiceService.split_audio_into_chunks` (lines 118-135) on the working
asset, identified by its decoded duration.  A decode failure or an export
exception lands in the `except` branch, which returns `[]` (line 135). -/
def split_audio_into_chunks (env : AudioEnv) (durationMs : Nat) : SplitResult :=
  if !env.splitDecodeOk then { returned := [], filesCreated := [] }
  else
    let ords := chunkOrdinals durationMs
    match env.chunkExportFail with
    | some j =>
      if j < ords.length then { returned := [], filesCreated := ords.take j }
      else { returned := ords, filesCreated := ords }
    | none => { returned := ords, filesCreated := ords }

/-- The per-chunk loop of lines 165-181: skip a chunk whose file still
exceeds the remote ceiling, call the remote service otherwise; a raised
remote call (modelled by `none`) aborts the whole loop. -/
def transcribeChunks (env : AudioEnv) : List Nat → Option (List String)
  | [] => some []
  | i :: rest =>
    if MAX_AUDIO_SIZE_MB * MB < env.chunkSize i then transcribeChunks env rest
    else
      match env.chunkText i with
      | none => none
      | some t => (transcribeChunks env rest).map (fun ts => t :: ts)

/-- The ordered trace of chunk ordinals actually sent to the remote service
by the loop of lines 165-181 (the aborting call included). -/
def chunkCalls (env : AudioEnv) : List Nat → List Nat
  | [] => []
  | i :: rest =>
    if MAX_AUDIO_SIZE_MB * MB < env.chunkSize i then chunkCalls env rest
    else
      match env.chunkText i with
      | none => [i]
      | some _ => i :: chunkCalls env rest

/-- Whether the chunk file with ordinal `i` passes the size check of
lines 168-171 (its byte size does not exceed the remote ceiling). -/
def chunkFits (env : AudioEnv) (i : Nat) : Bool :=
  decide (env.chunkSize i ≤ MAX_AUDIO_SIZE_MB * MB)

/-- A derived file of one `transcribe_audio` call. -/
inductive TFile
  | processed
  | chunk (i : Nat)
deriving DecidableEq, Repr

/-- Observable outcome of one `transcribe_audio` call. -/
structure TranscribeRun where
  /-- the returned transcription, `None` modelled as `none` -/
  result : Option String
  /-- ordinals of chunks sent to the remote service, in call order -/
  chunkCallsMade : List Nat
  /-- whether the direct whole-file remote call was issued -/
  directCallMade : Bool
  /-- derived files still on disk when the call returns -/
  leftoverFiles : List TFile
  /-- whether the caller-supplied input file was deleted (the `finally`
  block only ever removes chunk files and a compacted file at a path
  different from the input, line 211) -/
  originalDeleted : Bool
deriving DecidableEq, Repr

/-- Lines 152-215 of `transcribe_audio`, after the compaction step:
size check, decomposition, per-chunk or direct remote call, and the
`finally` cleanup.  `processedLeft` says whether a compacted file exists
whose path the cleanup no longer checks (it was written, but
`processed_path` was reset to the input path when preprocessing reported
failure, line 150). -/
def runPipeline (env : AudioEnv) (workSz workDur : Nat) (processedLeft : Bool) :
    TranscribeRun :=
  if MAX_AUDIO_SIZE_MB * MB < workSz then
    let sp := split_audio_into_chunks env workDur
    let leftoverChunks :=
      (sp.filesCreated.filter (fun i => !(sp.returned.contains i))).map TFile.chunk
    if sp.returned.isEmpty then
      { result := none
        chunkCallsMade := []
        directCallMade := false
        leftoverFiles := leftoverChunks ++ (if processedLeft then [TFile.processed] else [])
        originalDeleted := false }
    else
      { result :=
          match transcribeChunks env sp.returned with
          | none => none
          | some ts => if ts.isEmpty then none else some (String.intercalate " " ts)
        chunkCallsMade := chunkCalls env sp.returned
        directCallMade := false
        leftoverFiles := leftoverChunks ++ (if processedLeft then [TFile.processed] else [])
        originalDeleted := false }
  else
    { result := env.wholeText
      chunkCallsMade := []
      directCallMade := true
      leftoverFiles := if processedLeft then [TFile.processed] else []
      originalDeleted := false }

/-- `VoiceService.transcribe_audio` (lines 137-215). -/
def transcribe_audio (env : AudioEnv) : TranscribeRun :=
  let pre := preprocess_audio env (aggFlag env)
  runPipeline env (workSize env pre) (workDuration env pre)
    (processedWritten env (aggFlag env) && pre.isNone)

/-- Scenario for C1: a 26 MB asset that compaction cannot decode, split into
three chunks, where only the interior chunk's remote call fails. -/
def envC1 : AudioEnv where
  origSize := 26 * MB
  decodeOk := false
  exportNormalOk := true
  exportAggOk := true
  normalSize := 0
  aggSize := 0
  durOrig := 900000
  durNormal := 0
  durAgg := 0
  splitDecodeOk := true
  chunkExportFail := none
  chunkSize := fun _ => 0
  chunkText := fun i => if i = 1 then none else if i = 0 then some "a" else some "c"
  wholeText := none

/-- Texts delivered by the remote service in the C2 witness scenario. -/
def c2texts : Nat → String :=
  fun i => if i = 0 then "a" else "b"

/-- Scenario for C2: a 26 MB undecodable asset of duration 600000 ms, split
into two chunks that both fit and both transcribe successfully. -/
def envC2 : AudioEnv where
  origSize := 26 * MB
  decodeOk := false
  exportNormalOk := true
  exportAggOk := true
  normalSize := 0
  aggSize := 0
  durOrig := 600000
  durNormal := 0
  durAgg := 0
  splitDecodeOk := true
  chunkExportFail := none
  chunkSize := fun _ => 0
  chunkText := fun i => some (c2texts i)
  wholeText := none

/-- Scenario for C4's counterexample: splitting a three-chunk asset raises on
the second chunk export, after the first chunk file was already written. -/
def envC4 : AudioEnv where
  origSize := 26 * MB
  decodeOk := false
  exportNormalOk := true
  exportAggOk := true
  normalSize := 0
  aggSize := 0
  durOrig := 900000
  durNormal := 0
  durAgg := 0
  splitDecodeOk := true
  chunkExportFail := some 1
  chunkSize := fun _ => 0
  chunkText := fun _ => none
  wholeText := none

/-- Benign scenario (small decodable asset) for the C4 amended witness. -/
def envC4w : AudioEnv where
  origSize := MB
  decodeOk := true
  exportNormalOk := true
  exportAggOk := true
  normalSize := MB
  aggSize := MB
  durOrig := 60000
  durNormal := 30000
  durAgg := 20000
  splitDecodeOk := true
  chunkExportFail := none
  chunkSize := fun _ => 0
  chunkText := fun _ => some "t"
  wholeText := some "hello"

/-- Scenario for C5's witness: everything decodes, the normal-mode result is
19 MB, above the 18 MB re-escalation threshold. -/
def envC5 : AudioEnv where
  origSize := 10 * MB
  decodeOk := true
  exportNormalOk := true
  exportAggOk := true
  normalSize := 19 * MB
  aggSize := 2 * MB
  durOrig := 60000
  durNormal := 30000
  durAgg := 20000
  splitDecodeOk := true
  chunkExportFail := none
  chunkSize := fun _ => 0
  chunkText := fun _ => some "t"
  wholeText := some "hello"

/-- Scenario for C8's witness: compaction cannot decode the 1 MB input, and
the pipeline transcribes the original directly. -/
def envC8 : AudioEnv where
  origSize := MB
  decodeOk := false
  exportNormalOk := true
  exportAggOk := true
  normalSize := 0
  aggSize := 0
  durOrig := 60000
  durNormal := 0
  durAgg := 0
  splitDecodeOk := true
  chunkExportFail := none
  chunkSize := fun _ => 0
  chunkText := fun _ => some "t"
  wholeText := some "hi"

/-- Scenario for C9's witness: an oversized undecodable asset of zero
duration, whose decomposition yields no chunks. -/
def envC9 : AudioEnv where
  origSize := 26 * MB
  decodeOk := false
  exportNormalOk := true
  exportAggOk := true
  normalSize := 0
  aggSize := 0
  durOrig := 0
  durNormal := 0
  durAgg := 0
  splitDecodeOk := true
  chunkExportFail := none
  chunkSize := fun _ => 0
  chunkText := fun _ => none
  wholeText := none

/-! ### Theorems about the text segmenter -/

theorem splitPoint_pos (chunk : List Char) : 1 ≤ splitPoint chunk := by
  unfold splitPoint
  simp only [maxTextLength]
  split
  · omega
  · split
    · omega
    · omega

theorem pyStrip_length_le (s : List Char) : (pyStrip s).length ≤ s.length := by
  unfold pyStrip
  have h1 : (s.dropWhile isPySpace).length ≤ s.length :=
    (List.dropWhile_sublist _).length_le
  have h2 : ((s.dropWhile isPySpace).reverse.dropWhile isPySpace).length
      ≤ (s.dropWhile isPySpace).reverse.length :=
    (List.dropWhile_sublist _).length_le
  simp only [List.length_reverse] at *
  omega

theorem rfind_ge_neg_one (s : List Char) (c : Char) : -1 ≤ rfind s c := by
  induction s with
  | nil => simp [rfind]
  | cons a rest ih =>
    simp only [rfind]
    split
    · omega
    · split <;> omega

theorem rfind_lt_length (s : List Char) (c : Char) : rfind s c < (s.length : Int) := by
  induction s with
  | nil => simp [rfind]
  | cons a rest ih =>
    simp only [rfind, List.length_cons]
    split
    · push_cast
      omega
    · split <;> (push_cast; omega)

theorem rfind_getD (s : List Char) (c : Char) (h : 0 ≤ rfind s c) :
    s.getD (rfind s c).toNat ' ' = c := by
  induction s with
  | nil => simp [rfind] at h
  | cons a rest ih =>
    simp only [rfind] at h ⊢
    by_cases h0 : (0 : Int) ≤ rfind rest c
    · rw [if_pos h0] at h ⊢
      have ht : (rfind rest c + 1).toNat = (rfind rest c).toNat + 1 := by omega
      rw [ht, List.getD_cons_succ]
      exact ih h0
    · rw [if_neg h0] at h ⊢
      by_cases hac : a = c
      · simp [hac]
      · rw [if_neg hac] at h ⊢
        omega

theorem rfind_le_of_getD (s : List Char) (c : Char) (j : Nat)
    (hj : j < s.length) (hc : s.getD j ' ' = c) : (j : Int) ≤ rfind s c := by
  induction s generalizing j with
  | nil => simp at hj
  | cons a rest ih =>
    cases j with
    | zero =>
      simp only [List.getD_cons_zero] at hc
      have h0 : (0 : Int) ≤ rfind (a :: rest) c := by
        simp only [rfind]
        by_cases hr : (0 : Int) ≤ rfind rest c
        · rw [if_pos hr]
          omega
        · rw [if_neg hr, if_pos hc]
      simpa using h0
    | succ j =>
      simp only [List.length_cons, Nat.succ_lt_succ_iff] at hj
      simp only [List.getD_cons_succ] at hc
      have h1 := ih j hj hc
      simp only [rfind]
      have h0 : (0 : Int) ≤ rfind rest c := le_trans (by omega) h1
      rw [if_pos h0]
      push_cast
      omega

/-- Index-at-most bound on `rfind` from the absence of the character beyond
a given position. -/
theorem rfind_le_of_after (s : List Char) (c : Char) (i : Nat)
    (hafter : ∀ j, i < j → j < s.length → s.getD j ' ' ≠ c) :
    rfind s c ≤ (i : Int) := by
  by_contra hc
  push_neg at hc
  have h0 : (0 : Int) ≤ rfind s c := by omega
  have hg := rfind_getD s c h0
  have hlen := rfind_lt_length s c
  exact hafter (rfind s c).toNat (by omega) (by omega) hg

theorem lastSentenceEnd_eq (s : List Char) :
    lastSentenceEnd s
      = max (max (max (-1) (rfind s '.')) (rfind s '!')) (rfind s '?') := rfl

theorem lastSentenceEnd_of_isLastTerm (s : List Char) (i : Nat)
    (h : IsLastTerm s i) : lastSentenceEnd s = (i : Int) := by
  obtain ⟨hlt, hterm, hafter⟩ := h
  rw [lastSentenceEnd_eq]
  have hd : rfind s '.' ≤ (i : Int) :=
    rfind_le_of_after s '.' i
      (fun j hj hl he => hafter j hj hl (he ▸ Or.inl rfl))
  have he : rfind s '!' ≤ (i : Int) :=
    rfind_le_of_after s '!' i
      (fun j hj hl he => hafter j hj hl (he ▸ Or.inr (Or.inl rfl)))
  have hq : rfind s '?' ≤ (i : Int) :=
    rfind_le_of_after s '?' i
      (fun j hj hl he => hafter j hj hl (he ▸ Or.inr (Or.inr rfl)))
  have hup : (i : Int) ≤ max (max (max (-1) (rfind s '.')) (rfind s '!')) (rfind s '?') := by
    rcases hterm with hc | hc | hc
    · have := rfind_le_of_getD s '.' i hlt hc
      simp only [le_max_iff]
      omega
    · have := rfind_le_of_getD s '!' i hlt hc
      simp only [le_max_iff]
      omega
    · have := rfind_le_of_getD s '?' i hlt hc
      simp only [le_max_iff]
      omega
  apply le_antisymm _ hup
  simp only [max_le_iff]
  refine ⟨⟨⟨by omega, hd⟩, he⟩, hq⟩

theorem isLastTerm_lastSentenceEnd (s : List Char)
    (h : 0 ≤ lastSentenceEnd s) : IsLastTerm s (lastSentenceEnd s).toNat := by
  have hd : rfind s '.' ≤ lastSentenceEnd s := by
    rw [lastSentenceEnd_eq]
    simp only [le_max_iff]
    omega
  have he : rfind s '!' ≤ lastSentenceEnd s := by
    rw [lastSentenceEnd_eq]
    simp only [le_max_iff]
    omega
  have hq : rfind s '?' ≤ lastSentenceEnd s := by
    rw [lastSentenceEnd_eq]
    simp only [le_max_iff]
    omega
  have hlen : lastSentenceEnd s < (s.length : Int) := by
    rw [lastSentenceEnd_eq]
    simp only [max_lt_iff]
    have h1 := rfind_lt_length s '.'
    have h2 := rfind_lt_length s '!'
    have h3 := rfind_lt_length s '?'
    refine ⟨⟨⟨by omega, h1⟩, h2⟩, h3⟩
  have hatt : rfind s '.' = lastSentenceEnd s ∨ rfind s '!' = lastSentenceEnd s
      ∨ rfind s '?' = lastSentenceEnd s := by
    by_contra hne
    push_neg at hne
    obtain ⟨n1, n2, n3⟩ := hne
    have hle : lastSentenceEnd s ≤ lastSentenceEnd s - 1 := by
      conv_lhs => rw [lastSentenceEnd_eq]
      simp only [max_le_iff]
      exact ⟨⟨⟨by omega, by omega⟩, by omega⟩, by omega⟩
    omega
  have hafter : ∀ j, (lastSentenceEnd s).toNat < j → j < s.length →
      ¬ isTermCh (s.getD j ' ') := by
    intro j hj hl hterm
    rcases hterm with hc | hc | hc
    · have := rfind_le_of_getD s '.' j hl hc
      omega
    · have := rfind_le_of_getD s '!' j hl hc
      omega
    · have := rfind_le_of_getD s '?' j hl hc
      omega
  rcases hatt with hm | hm | hm
  · exact ⟨by omega, by rw [← hm]; exact Or.inl (rfind_getD s '.' (by omega)), hafter⟩
  · exact ⟨by omega, by rw [← hm]; exact Or.inr (Or.inl (rfind_getD s '!' (by omega))), hafter⟩
  · exact ⟨by omega, by rw [← hm]; exact Or.inr (Or.inr (rfind_getD s '?' (by omega))), hafter⟩

theorem isLastSpace_rfind (s : List Char) (h : 0 ≤ rfind s ' ') :
    IsLastSpace s (rfind s ' ').toNat := by
  have hlen := rfind_lt_length s ' '
  refine ⟨by omega, rfind_getD s ' ' h, ?_⟩
  intro j hj hl hc
  have := rfind_le_of_getD s ' ' j hl hc
  omega

theorem rfind_of_isLastSpace (s : List Char) (k : Nat)
    (h : IsLastSpace s k) : rfind s ' ' = (k : Int) := by
  obtain ⟨hlt, hsp, hafter⟩ := h
  exact le_antisymm (rfind_le_of_after s ' ' k hafter) (rfind_le_of_getD s ' ' k hlt hsp)

theorem splitPoint_eq_term (chunk : List Char)
    (h : (maxTextLength : Int) / 2 < lastSentenceEnd chunk) :
    splitPoint chunk = (lastSentenceEnd chunk + 1).toNat := by
  simp only [splitPoint]
  rw [if_pos h]

theorem splitPoint_eq_space (chunk : List Char)
    (h1 : ¬ (maxTextLength : Int) / 2 < lastSentenceEnd chunk)
    (h2 : (maxTextLength : Int) - 200 < rfind chunk ' ') :
    splitPoint chunk = (rfind chunk ' ').toNat := by
  simp only [splitPoint]
  rw [if_neg h1, if_pos h2]

theorem splitPoint_eq_maxLen (chunk : List Char)
    (h1 : ¬ (maxTextLength : Int) / 2 < lastSentenceEnd chunk)
    (h2 : ¬ (maxTextLength : Int) - 200 < rfind chunk ' ') :
    splitPoint chunk = maxTextLength := by
  simp only [splitPoint]
  rw [if_neg h1, if_neg h2]

theorem splitTextGo_ne_nil (t : List Char) (h : t ≠ []) : splitTextGo t ≠ [] := by
  rw [splitTextGo]
  split
  · next hemp => exact absurd (List.isEmpty_iff.mp hemp) h
  · split
    · simp
    · simp

theorem split_text_ne_nil (t : List Char) : split_text t ≠ [] := by
  unfold split_text
  split
  · simp
  · next hlen =>
    apply splitTextGo_ne_nil
    intro hnil
    subst hnil
    exact hlen (by simp [maxTextLength])

theorem head?_dropWhile_false (p : Char → Bool) (l : List Char) :
    ∀ a ∈ (l.dropWhile p).head?, p a = false := by
  intro a ha
  have h := List.head?_dropWhile_not p l
  simp only [Option.mem_def] at ha
  rw [ha] at h
  exact h

theorem getLast?_dropWhile_of_ne_nil (p : Char → Bool) (l : List Char)
    (h : l.dropWhile p ≠ []) : (l.dropWhile p).getLast? = l.getLast? := by
  obtain ⟨t, ht⟩ := List.dropWhile_suffix (l := l) p
  conv_rhs => rw [← ht]
  exact (List.getLast?_append_of_ne_nil t h).symm

theorem stripped_pyStrip (l : List Char) : Stripped (pyStrip l) := by
  unfold pyStrip Stripped
  constructor
  · intro a ha
    rw [List.head?_reverse] at ha
    by_cases hnil : (l.dropWhile isPySpace).reverse.dropWhile isPySpace = []
    · rw [hnil] at ha
      simp at ha
    · rw [getLast?_dropWhile_of_ne_nil _ _ hnil] at ha
      rw [← List.head?_reverse, List.reverse_reverse] at ha
      exact head?_dropWhile_false isPySpace l a ha
  · intro a ha
    rw [← List.head?_reverse, List.reverse_reverse] at ha
    exact head?_dropWhile_false isPySpace _ a ha

theorem dropWhile_eq_self_of_head (p : Char → Bool) (l : List Char)
    (h : ∀ a ∈ l.head?, p a = false) : l.dropWhile p = l := by
  cases l with
  | nil => rfl
  | cons a t =>
    have ha := h a (by simp)
    simp [List.dropWhile_cons, ha]

theorem pyStrip_of_stripped (l : List Char) (h : Stripped l) : pyStrip l = l := by
  obtain ⟨h1, h2⟩ := h
  unfold pyStrip
  rw [dropWhile_eq_self_of_head _ _ h1]
  rw [dropWhile_eq_self_of_head _ _ (by rw [List.head?_reverse]; exact h2)]
  exact List.reverse_reverse l

theorem stripped_parts_aux (n : Nat) : ∀ r : List Char, r.length ≤ n →
    Stripped r → ∀ p ∈ splitTextGo r, Stripped p := by
  induction n with
  | zero =>
    intro r hlen hr p hp
    have hnil : r = [] := List.length_eq_zero.mp (by omega)
    subst hnil
    rw [splitTextGo] at hp
    simp at hp
  | succ n ih =>
    intro r hlen hr p hp
    rw [splitTextGo] at hp
    by_cases hemp : r.isEmpty
    · rw [if_pos hemp] at hp
      simp at hp
    · rw [if_neg hemp] at hp
      by_cases hsmall : r.length ≤ maxTextLength
      · rw [if_pos hsmall] at hp
        simp only [List.mem_singleton] at hp
        subst hp
        exact hr
      · rw [if_neg hsmall] at hp
        simp only [List.mem_cons] at hp
        rcases hp with hp | hp
        · subst hp
          exact stripped_pyStrip _
        · refine ih (pyStrip (r.drop (splitPoint (r.take maxTextLength)))) ?_
            (stripped_pyStrip _) p hp
          have h1 := pyStrip_length_le (r.drop (splitPoint (r.take maxTextLength)))
          have h2 := splitPoint_pos (r.take maxTextLength)
          simp only [List.length_drop] at h1
          omega

/-- C3: in each splitting iteration, the split point inside the current
window follows the exact precedence of lines 92-111: immediately after the
last sentence terminator when its position exceeds `max_len / 2`; otherwise
at the last space when its position lies strictly within the final 200
characters of the window; otherwise exactly at `max_len`. -/
theorem C3_split_point_precedence (chunk : List Char) :
    (∀ i : Nat, IsLastTerm chunk i → maxTextLength / 2 < i →
      splitPoint chunk = i + 1) ∧
    ((∀ i : Nat, IsLastTerm chunk i → i ≤ maxTextLength / 2) →
      (∀ k : Nat, IsLastSpace chunk k → maxTextLength - 200 < k →
        splitPoint chunk = k) ∧
      ((∀ k : Nat, IsLastSpace chunk k → k ≤ maxTextLength - 200) →
        splitPoint chunk = maxTextLength)) := by
  constructor
  · intro i hi h2
    have hl := lastSentenceEnd_of_isLastTerm chunk i hi
    rw [splitPoint_eq_term chunk (by
      rw [hl]
      simp only [maxTextLength] at h2 ⊢
      omega)]
    rw [hl]
    omega
  · intro hno
    have hle : lastSentenceEnd chunk ≤ (maxTextLength : Int) / 2 := by
      rcases le_or_lt 0 (lastSentenceEnd chunk) with h0 | h0
      · have hT := isLastTerm_lastSentenceEnd chunk h0
        have := hno _ hT
        simp only [maxTextLength] at this ⊢
        omega
      · simp only [maxTextLength]
        omega
    constructor
    · intro k hk h3
      have hr := rfind_of_isLastSpace chunk k hk
      rw [splitPoint_eq_space chunk (not_lt.mpr hle) (by
        rw [hr]
        simp only [maxTextLength] at h3 ⊢
        omega)]
      rw [hr]
      omega
    · intro hnos
      have hsle : rfind chunk ' ' ≤ (maxTextLength : Int) - 200 := by
        rcases le_or_lt 0 (rfind chunk ' ') with h0 | h0
        · have hS := isLastSpace_rfind chunk h0
          have := hnos _ hS
          simp only [maxTextLength] at this ⊢
          omega
        · simp only [maxTextLength]
          omega
      exact splitPoint_eq_maxLen chunk (not_lt.mpr hle) (not_lt.mpr hsle)

/-- Witness for C3: on the window `" a"` there is no sentence terminator and
the only space is at position 0, so the hard cut at `max_len` applies. -/
theorem C3_split_point_precedence_witness : splitPoint [' ', 'a'] = maxTextLength := by
  have h1 : ∀ i : Nat, IsLastTerm [' ', 'a'] i → i ≤ maxTextLength / 2 := by
    intro i hi
    have := hi.1
    simp only [List.length_cons, List.length_nil, maxTextLength] at this ⊢
    omega
  have h2 : ∀ k : Nat, IsLastSpace [' ', 'a'] k → k ≤ maxTextLength - 200 := by
    intro k hk
    have := hk.1
    simp only [List.length_cons, List.length_nil, maxTextLength] at this ⊢
    omega
  exact ((C3_split_point_precedence [' ', 'a']).2 h1).2 h2

/-- C6: `split_text` terminates and yields at least one part on non-empty
input: the chosen split point is always at least 1, so each loop iteration
strictly shrinks the remaining text. -/
theorem C6_segment_terminates (t : List Char) :
    1 ≤ splitPoint (t.take maxTextLength) ∧
    (t ≠ [] →
      split_text t ≠ [] ∧
      (pyStrip (t.drop (splitPoint (t.take maxTextLength)))).length < t.length) := by
  refine ⟨splitPoint_pos _, fun h => ⟨split_text_ne_nil t, ?_⟩⟩
  have h1 := pyStrip_length_le (t.drop (splitPoint (t.take maxTextLength)))
  have h2 := splitPoint_pos (t.take maxTextLength)
  have h3 : 0 < t.length := List.length_pos.mpr h
  simp only [List.length_drop] at h1
  omega

/-- Witness for C6 at the one-character input `"a"`. -/
theorem C6_segment_terminates_witness :
    split_text ['a'] ≠ [] ∧
    (pyStrip (List.drop (splitPoint (List.take maxTextLength ['a'])) ['a'])).length
      < (['a'] : List Char).length :=
  (C6_segment_terminates ['a']).2 (by simp)

/-- Counterexample to C7 as stated: on the short input `" a "` (length 3 ≤
max_len) the single emitted part is the input itself, still carrying its
leading and trailing whitespace, so it is not trimmed before emission. -/
theorem C7_counterexample :
    split_text [' ', 'a', ' '] = [[' ', 'a', ' ']] ∧
    pyStrip [' ', 'a', ' '] ≠ [' ', 'a', ' '] := ⟨rfl, by decide⟩

/-- C7 amended: a text of length at most `max_len` is returned unchanged as a
single part (without trimming); every part emitted by the splitting loop on a
longer text is trimmed of leading and trailing whitespace. -/
theorem C7_parts_trimmed (t : List Char) :
    (t.length ≤ maxTextLength → split_text t = [t]) ∧
    (maxTextLength < t.length → ∀ p ∈ split_text t, pyStrip p = p) := by
  constructor
  · intro h
    unfold split_text
    rw [if_pos h]
  · intro h p hp
    unfold split_text at hp
    rw [if_neg (not_le.mpr h)] at hp
    rw [splitTextGo] at hp
    have hemp : ¬ t.isEmpty := by
      intro hc
      rw [List.isEmpty_iff.mp hc] at h
      simp [maxTextLength] at h
    rw [if_neg hemp, if_neg (not_le.mpr h)] at hp
    simp only [List.mem_cons] at hp
    rcases hp with hp | hp
    · subst hp
      exact pyStrip_of_stripped _ (stripped_pyStrip _)
    · exact pyStrip_of_stripped p
        (stripped_parts_aux
          (pyStrip (t.drop (splitPoint (t.take maxTextLength)))).length _
          le_rfl (stripped_pyStrip _) p hp)

/-- Witness for C7 amended at the one-character input `"a"`. -/
theorem C7_parts_trimmed_witness : split_text ['a'] = [['a']] :=
  (C7_parts_trimmed ['a']).1 (by decide)

/-- C10: `split_text` maps the empty string to the singleton sequence
containing the empty string, and never returns an empty sequence. -/
theorem C10_segment_empty :
    split_text [] = [[]] ∧ ∀ t : List Char, split_text t ≠ [] :=
  ⟨rfl, split_text_ne_nil⟩

/-! ### Theorems about the audio pipeline -/

theorem rangeStepGo_congr (s : Nat) (hs : 0 < s) :
    ∀ f₁ f₂ start stop, stop - start ≤ f₁ → stop - start ≤ f₂ →
      rangeStepGo start stop s f₁ = rangeStepGo start stop s f₂ := by
  intro f₁
  induction f₁ with
  | zero =>
    intro f₂ start stop h1 h2
    cases f₂ with
    | zero => rfl
    | succ f =>
      simp only [rangeStepGo]
      rw [if_neg (by omega)]
  | succ f₁ ih =>
    intro f₂ start stop h1 h2
    cases f₂ with
    | zero =>
      simp only [rangeStepGo]
      rw [if_neg (by omega)]
    | succ f₂ =>
      simp only [rangeStepGo]
      by_cases hlt : start < stop
      · rw [if_pos hlt, if_pos hlt]
        congr 1
        exact ih f₂ (start + s) stop (by omega) (by omega)
      · rw [if_neg hlt, if_neg hlt]

theorem rangeStep_eq (start stop s : Nat) (hs : 0 < s) :
    rangeStep start stop s
      = if start < stop then start :: rangeStep (start + s) stop s else [] := by
  unfold rangeStep
  by_cases hlt : start < stop
  · rw [if_pos hlt]
    obtain ⟨k, hk⟩ : ∃ k, stop - start = k + 1 := ⟨stop - start - 1, by omega⟩
    rw [hk]
    simp only [rangeStepGo]
    rw [if_pos hlt]
    congr 1
    exact rangeStepGo_congr s hs k (stop - (start + s)) (start + s) stop (by omega) (by omega)
  · rw [if_neg hlt]
    have h0 : stop - start = 0 := by omega
    rw [h0]
    rfl

theorem rangeStep_map_div (s : Nat) (hs : 0 < s) :
    ∀ m k d, d - k * s ≤ m →
      (rangeStep (k * s) d s).map (fun i => i / s)
        = (List.range ((d + s - 1) / s - k)).map (fun j => k + j) := by
  have hempty : ∀ k d, ¬ k * s < d →
      (rangeStep (k * s) d s).map (fun i => i / s)
        = (List.range ((d + s - 1) / s - k)).map (fun j => k + j) := by
    intro k d hd
    rw [rangeStep_eq _ _ _ hs, if_neg hd]
    have hle : (d + s - 1) / s ≤ k := by
      have hlt : (d + s - 1) / s < k + 1 := by
        rw [Nat.div_lt_iff_lt_mul hs]
        have hmul : (k + 1) * s = k * s + s := by ring
        omega
      omega
    rw [Nat.sub_eq_zero_of_le hle]
    simp
  intro m
  induction m with
  | zero =>
    intro k d hm
    exact hempty k d (by omega)
  | succ m ih =>
    intro k d hm
    by_cases hlt : k * s < d
    · rw [rangeStep_eq _ _ _ hs, if_pos hlt]
      simp only [List.map_cons]
      rw [Nat.mul_div_cancel k hs]
      have hstep : k * s + s = (k + 1) * s := by ring
      rw [hstep]
      rw [ih (k + 1) d (by
        have hmul : (k + 1) * s = k * s + s := by ring
        omega)]
      have hkc : k < (d + s - 1) / s := by
        rw [Nat.lt_iff_add_one_le, Nat.le_div_iff_mul_le hs]
        have hmul : (k + 1) * s = k * s + s := by ring
        omega
      have hsub : (d + s - 1) / s - k = ((d + s - 1) / s - (k + 1)) + 1 := by omega
      rw [hsub, List.range_succ_eq_map]
      simp only [List.map_cons, List.map_map]
      congr 1
      apply List.map_congr_left
      intro a _
      simp only [Function.comp_apply, Nat.succ_eq_add_one]
      omega
    · exact hempty k d hlt

theorem chunkOrdinals_eq (d : Nat) : chunkOrdinals d = List.range (numChunks d) := by
  unfold chunkOrdinals numChunks
  have hs : 0 < chunkDurationMs := by
    simp [chunkDurationMs]
  have h := rangeStep_map_div chunkDurationMs hs (d - 0 * chunkDurationMs) 0 d le_rfl
  simp only [Nat.zero_mul, Nat.sub_zero] at h
  rw [h]
  have hid : (fun j => 0 + j) = (id : Nat → Nat) := funext fun j => by simp
  rw [hid, List.map_id]

theorem split_ok (env : AudioEnv) (d : Nat)
    (h1 : env.splitDecodeOk = true) (h2 : env.chunkExportFail = none) :
    split_audio_into_chunks env d =
      { returned := List.range (numChunks d), filesCreated := List.range (numChunks d) } := by
  unfold split_audio_into_chunks
  rw [h1, h2]
  simp [chunkOrdinals_eq]

theorem transcribeChunks_all (env : AudioEnv) (texts : Nat → String) :
    ∀ L : List Nat, (∀ i ∈ L, env.chunkText i = some (texts i)) →
      transcribeChunks env L = some ((L.filter (chunkFits env)).map texts) := by
  intro L
  induction L with
  | nil => intro _; rfl
  | cons i rest ih =>
    intro h
    have hi := h i (List.mem_cons_self i rest)
    have hrest : ∀ j ∈ rest, env.chunkText j = some (texts j) :=
      fun j hj => h j (List.mem_cons_of_mem _ hj)
    by_cases hf : chunkFits env i = true
    · have hsz : ¬ MAX_AUDIO_SIZE_MB * MB < env.chunkSize i := by
        simp only [chunkFits, decide_eq_true_eq] at hf
        omega
      simp only [transcribeChunks]
      rw [if_neg hsz, hi, ih hrest, List.filter_cons, if_pos hf]
      simp
    · have hsz : MAX_AUDIO_SIZE_MB * MB < env.chunkSize i := by
        simp only [chunkFits, decide_eq_true_eq] at hf
        omega
      simp only [transcribeChunks]
      rw [if_pos hsz, ih hrest, List.filter_cons, if_neg hf]

theorem chunkCalls_all (env : AudioEnv) (texts : Nat → String) :
    ∀ L : List Nat, (∀ i ∈ L, env.chunkText i = some (texts i)) →
      chunkCalls env L = L.filter (chunkFits env) := by
  intro L
  induction L with
  | nil => intro _; rfl
  | cons i rest ih =>
    intro h
    have hi := h i (List.mem_cons_self i rest)
    have hrest : ∀ j ∈ rest, env.chunkText j = some (texts j) :=
      fun j hj => h j (List.mem_cons_of_mem _ hj)
    by_cases hf : chunkFits env i = true
    · have hsz : ¬ MAX_AUDIO_SIZE_MB * MB < env.chunkSize i := by
        simp only [chunkFits, decide_eq_true_eq] at hf
        omega
      simp only [chunkCalls]
      rw [if_neg hsz, hi, ih hrest, List.filter_cons, if_pos hf]
    · have hsz : MAX_AUDIO_SIZE_MB * MB < env.chunkSize i := by
        simp only [chunkFits, decide_eq_true_eq] at hf
        omega
      simp only [chunkCalls]
      rw [if_pos hsz, ih hrest, List.filter_cons, if_neg hf]

theorem transcribeChunks_fail (env : AudioEnv) :
    ∀ L : List Nat, (∃ i ∈ L, chunkFits env i = true ∧ env.chunkText i = none) →
      transcribeChunks env L = none := by
  intro L
  induction L with
  | nil => intro h; simp at h
  | cons i rest ih =>
    intro h
    obtain ⟨j, hjmem, hjfit, hjnone⟩ := h
    simp only [transcribeChunks]
    rcases List.mem_cons.mp hjmem with hj | hj
    · subst hj
      have hsz : ¬ MAX_AUDIO_SIZE_MB * MB < env.chunkSize j := by
        simp only [chunkFits, decide_eq_true_eq] at hjfit
        omega
      rw [if_neg hsz, hjnone]
    · by_cases hsz : MAX_AUDIO_SIZE_MB * MB < env.chunkSize i
      · rw [if_pos hsz]
        exact ih ⟨j, hj, hjfit, hjnone⟩
      · rw [if_neg hsz]
        cases hc : env.chunkText i with
        | none => rfl
        | some t =>
          rw [ih ⟨j, hj, hjfit, hjnone⟩]
          rfl

theorem transcribe_eq_pipeline (env : AudioEnv) :
    transcribe_audio env
      = runPipeline env (workSize env (preprocess_audio env (aggFlag env)))
          (workDuration env (preprocess_audio env (aggFlag env)))
          (processedWritten env (aggFlag env)
            && (preprocess_audio env (aggFlag env)).isNone) := rfl

theorem runPipeline_chunk_branch (env : AudioEnv) (wsz wdur : Nat) (pl : Bool)
    (hover : MAX_AUDIO_SIZE_MB * MB < wsz)
    (hret : ¬ (split_audio_into_chunks env wdur).returned.isEmpty) :
    runPipeline env wsz wdur pl =
      { result :=
          match transcribeChunks env (split_audio_into_chunks env wdur).returned with
          | none => none
          | some ts => if ts.isEmpty then none else some (String.intercalate " " ts)
        chunkCallsMade := chunkCalls env (split_audio_into_chunks env wdur).returned
        directCallMade := false
        leftoverFiles :=
          ((split_audio_into_chunks env wdur).filesCreated.filter
              (fun i => !((split_audio_into_chunks env wdur).returned.contains i))).map
            TFile.chunk ++ (if pl then [TFile.processed] else [])
        originalDeleted := false } := by
  simp only [runPipeline]
  rw [if_pos hover, if_neg hret]

theorem runPipeline_chunk_empty (env : AudioEnv) (wsz wdur : Nat) (pl : Bool)
    (hover : MAX_AUDIO_SIZE_MB * MB < wsz)
    (hret : (split_audio_into_chunks env wdur).returned.isEmpty) :
    runPipeline env wsz wdur pl =
      { result := none
        chunkCallsMade := []
        directCallMade := false
        leftoverFiles :=
          ((split_audio_into_chunks env wdur).filesCreated.filter
              (fun i => !((split_audio_into_chunks env wdur).returned.contains i))).map
            TFile.chunk ++ (if pl then [TFile.processed] else [])
        originalDeleted := false } := by
  simp only [runPipeline]
  rw [if_pos hover, if_pos hret]

theorem runPipeline_direct (env : AudioEnv) (wsz wdur : Nat) (pl : Bool)
    (hnot : ¬ MAX_AUDIO_SIZE_MB * MB < wsz) :
    runPipeline env wsz wdur pl =
      { result := env.wholeText
        chunkCallsMade := []
        directCallMade := true
        leftoverFiles := if pl then [TFile.processed] else []
        originalDeleted := false } := by
  simp only [runPipeline]
  rw [if_neg hnot]

/-- Counterexample to C1 as stated: in a three-chunk decomposition where
exactly the interior chunk's remote call raises and both siblings succeed,
`transcribe_audio` returns null instead of the assembly `"a c"` of the
successful siblings: the exception escapes the chunk loop into the outer
`except` handler (line 198). -/
theorem C1_counterexample :
    envC1.chunkText 0 = some "a" ∧ envC1.chunkText 1 = none ∧
    envC1.chunkText 2 = some "c" ∧
    (split_audio_into_chunks envC1
        (workDuration envC1 (preprocess_audio envC1 (aggFlag envC1)))).returned
      = [0, 1, 2] ∧
    (transcribe_audio envC1).result = none := by
  decide

/-- C1 amended: when any chunk that passes the size check has its remote
transcription call fail, the whole chunked operation aborts and
`transcribe_audio` returns null (only oversized chunks are skipped; remote
failures are not tolerated per-chunk). -/
theorem C1_remote_failure_aborts (env : AudioEnv) (i : Nat)
    (hdec : env.splitDecodeOk = true)
    (hexp : env.chunkExportFail = none)
    (hover : MAX_AUDIO_SIZE_MB * MB
      < workSize env (preprocess_audio env (aggFlag env)))
    (hmem : i < numChunks (workDuration env (preprocess_audio env (aggFlag env))))
    (hfit : chunkFits env i = true)
    (hfail : env.chunkText i = none) :
    (transcribe_audio env).result = none := by
  have hsplit := split_ok env (workDuration env (preprocess_audio env (aggFlag env))) hdec hexp
  have hret : ¬ (split_audio_into_chunks env
      (workDuration env (preprocess_audio env (aggFlag env)))).returned.isEmpty := by
    rw [hsplit]
    simp only [List.isEmpty_iff, List.range_eq_nil]
    omega
  rw [transcribe_eq_pipeline, runPipeline_chunk_branch env _ _ _ hover hret]
  simp only []
  rw [hsplit]
  rw [transcribeChunks_fail env _ ⟨i, List.mem_range.mpr hmem, hfit, hfail⟩]

/-- Witness for C1 amended, at the same scenario as the counterexample. -/
theorem C1_remote_failure_aborts_witness : (transcribe_audio envC1).result = none :=
  C1_remote_failure_aborts envC1 1 rfl rfl (by decide) (by decide) (by decide) rfl

/-- C2: for an asset still oversized after compaction, `transcribe_audio`
splits it into exactly `ceil(duration_ms / 300000)` chunks, issues one
remote call per non-skipped chunk in ascending ordinal order, and returns
the per-chunk texts joined by single spaces in that order (assuming the
decomposition succeeds, every remote call succeeds, and at least one chunk
passes the size check, as the claim presupposes texts to join). -/
theorem C2_chunked_transcription (env : AudioEnv) (texts : Nat → String)
    (hdec : env.splitDecodeOk = true)
    (hexp : env.chunkExportFail = none)
    (hover : MAX_AUDIO_SIZE_MB * MB
      < workSize env (preprocess_audio env (aggFlag env)))
    (htext : ∀ i, env.chunkText i = some (texts i))
    (hone : (List.range (numChunks (workDuration env
        (preprocess_audio env (aggFlag env))))).filter (chunkFits env) ≠ []) :
    (split_audio_into_chunks env
        (workDuration env (preprocess_audio env (aggFlag env)))).returned
      = List.range (numChunks (workDuration env (preprocess_audio env (aggFlag env)))) ∧
    (transcribe_audio env).chunkCallsMade
      = (List.range (numChunks (workDuration env
          (preprocess_audio env (aggFlag env))))).filter (chunkFits env) ∧
    (transcribe_audio env).result
      = some (String.intercalate " "
          (((List.range (numChunks (workDuration env
              (preprocess_audio env (aggFlag env))))).filter (chunkFits env)).map texts)) := by
  have hsplit := split_ok env (workDuration env (preprocess_audio env (aggFlag env))) hdec hexp
  have hret : ¬ (split_audio_into_chunks env
      (workDuration env (preprocess_audio env (aggFlag env)))).returned.isEmpty := by
    rw [hsplit]
    simp only [List.isEmpty_iff]
    intro hc
    exact hone (by rw [hc]; rfl)
  rw [transcribe_eq_pipeline, runPipeline_chunk_branch env _ _ _ hover hret]
  refine ⟨by rw [hsplit], ?_, ?_⟩
  · simp only []
    rw [hsplit]
    exact chunkCalls_all env texts _ (fun i _ => htext i)
  · simp only []
    rw [hsplit, transcribeChunks_all env texts _ (fun i _ => htext i)]
    have hne : (((List.range (numChunks (workDuration env
        (preprocess_audio env (aggFlag env))))).filter (chunkFits env)).map texts).isEmpty
          = false := by
      cases hfe : ((List.range (numChunks (workDuration env
          (preprocess_audio env (aggFlag env))))).filter (chunkFits env)) with
      | nil => exact absurd hfe hone
      | cons a l => rfl
    simp only [hne, Bool.false_eq_true, if_false]

/-- Witness for C2: a 26 MB undecodable asset of duration 600000 ms is split
into two chunks, both transcribed, and the texts are joined in order. -/
theorem C2_chunked_transcription_witness :
    (split_audio_into_chunks envC2
        (workDuration envC2 (preprocess_audio envC2 (aggFlag envC2)))).returned
      = List.range (numChunks (workDuration envC2 (preprocess_audio envC2 (aggFlag envC2)))) ∧
    (transcribe_audio envC2).chunkCallsMade
      = (List.range (numChunks (workDuration envC2
          (preprocess_audio envC2 (aggFlag envC2))))).filter (chunkFits envC2) ∧
    (transcribe_audio envC2).result
      = some (String.intercalate " "
          (((List.range (numChunks (workDuration envC2
              (preprocess_audio envC2 (aggFlag envC2))))).filter (chunkFits envC2)).map c2texts)) :=
  C2_chunked_transcription envC2 c2texts rfl rfl (by decide) (fun i => rfl) (by decide)

/-- Counterexample to C4 as stated: when the decomposition raises while
exporting the second chunk, the first chunk's file was already written but
`chunk_files` stays `[]`, so the `finally` block deletes nothing and a
derived chunk file persists after `transcribe_audio` returns. -/
theorem C4_counterexample :
    envC4.chunkExportFail = some 1 ∧
    (transcribe_audio envC4).result = none ∧
    (transcribe_audio envC4).leftoverFiles = [TFile.chunk 0] := by
  decide

/-- C4 amended: on every exit path the `finally` block deletes every chunk
file recorded in the returned decomposition list and the compacted file it
still references, and the original input is never deleted; chunk files
written by a decomposition attempt that subsequently raised, and a
compacted file written before preprocessing reported failure, are however
untracked and persist. -/
theorem C4_cleanup (env : AudioEnv)
    (hexp : env.chunkExportFail = none)
    (hpre : preprocess_audio env (aggFlag env) ≠ none
      ∨ processedWritten env (aggFlag env) = false) :
    (transcribe_audio env).leftoverFiles = [] ∧
    (transcribe_audio env).originalDeleted = false := by
  have hpl : (processedWritten env (aggFlag env)
      && (preprocess_audio env (aggFlag env)).isNone) = false := by
    rcases hpre with h | h
    · cases hp : preprocess_audio env (aggFlag env) with
      | none => exact absurd hp h
      | some m => simp [hp]
    · simp [h]
  have hchunks : ∀ d, ((split_audio_into_chunks env d).filesCreated.filter
      (fun i => !((split_audio_into_chunks env d).returned.contains i))).map TFile.chunk
        = [] := by
    intro d
    unfold split_audio_into_chunks
    rw [hexp]
    cases hs : env.splitDecodeOk with
    | false => simp
    | true =>
      simp only [Bool.not_true, Bool.false_eq_true, if_false]
      have : ∀ L : List Nat, (L.filter (fun i => !(L.contains i))).map TFile.chunk = [] := by
        intro L
        have hf : L.filter (fun i => !(L.contains i)) = [] := by
          apply List.filter_eq_nil_iff.mpr
          intro a ha
          simp [List.contains, List.elem_eq_mem, ha]
        rw [hf]
        rfl
      exact this _
  rw [transcribe_eq_pipeline, hpl]
  by_cases hover : MAX_AUDIO_SIZE_MB * MB
      < workSize env (preprocess_audio env (aggFlag env))
  · by_cases hret : (split_audio_into_chunks env
        (workDuration env (preprocess_audio env (aggFlag env)))).returned.isEmpty
    · rw [runPipeline_chunk_empty env _ _ _ hover hret]
      refine ⟨?_, rfl⟩
      simp only [hchunks]
      rfl
    · rw [runPipeline_chunk_branch env _ _ _ hover hret]
      refine ⟨?_, rfl⟩
      simp only [hchunks]
      rfl
  · rw [runPipeline_direct env _ _ _ hover]
    exact ⟨rfl, rfl⟩

/-- Witness for C4 amended: a benign small decodable asset leaves no derived
files behind and the input file survives. -/
theorem C4_cleanup_witness :
    (transcribe_audio envC4w).leftoverFiles = [] ∧
    (transcribe_audio envC4w).originalDeleted = false :=
  C4_cleanup envC4w rfl (Or.inl (by decide))

/-- C5: aggressive compression is selected up front exactly when the source
exceeds 50 MB; a successful normal-mode run escalates to aggressive exactly
when its result exceeds 18 MB; and an aggressive run's outcome never depends
on any size (it never escalates again), so escalation happens at most once. -/
theorem C5_escalation_policy (env : AudioEnv) :
    (aggFlag env = true ↔ 50 * MB < env.origSize) ∧
    (env.decodeOk = true → env.exportAggOk = true →
      preprocess_audio env true = some Mode.aggressive) ∧
    (env.decodeOk = true → env.exportNormalOk = true → env.exportAggOk = true →
      (preprocess_audio env false = some Mode.aggressive ↔ 18 * MB < env.normalSize)) ∧
    (∀ env2 : AudioEnv, env2.decodeOk = env.decodeOk →
      env2.exportAggOk = env.exportAggOk →
      preprocess_audio env2 true = preprocess_audio env true) := by
  refine ⟨?_, ?_, ?_, ?_⟩
  · simp [aggFlag]
  · intro h1 h2
    simp [preprocess_audio, h1, h2]
  · intro h1 h2 h3
    constructor
    · intro hp
      by_contra hn
      simp [preprocess_audio, h1, h2, h3, hn] at hp
    · intro hs
      simp [preprocess_audio, h1, h2, h3, hs]
  · intro env2 h1 h2
    simp [preprocess_audio, h1, h2]

/-- Witness for C5: with everything decodable and a 19 MB normal-mode
result, the aggressive run stays aggressive and the normal run escalates. -/
theorem C5_escalation_policy_witness :
    preprocess_audio envC5 true = some Mode.aggressive ∧
    (preprocess_audio envC5 false = some Mode.aggressive ↔ 18 * MB < envC5.normalSize) :=
  ⟨(C5_escalation_policy envC5).2.1 rfl rfl, (C5_escalation_policy envC5).2.2.1 rfl rfl rfl⟩

/-- C8: any decode failure makes `preprocess_audio` report a non-fatal
failure (it returns `False` rather than raising), and whenever preprocessing
reports failure `transcribe_audio` continues the pipeline on the original
asset's size and duration instead of aborting. -/
theorem C8_preprocess_failure_degrades (env : AudioEnv) :
    (∀ a : Bool, env.decodeOk = false → preprocess_audio env a = none) ∧
    (preprocess_audio env (aggFlag env) = none →
      transcribe_audio env
        = runPipeline env env.origSize env.durOrig (processedWritten env (aggFlag env))) := by
  constructor
  · intro a h
    simp [preprocess_audio, h]
  · intro h
    rw [transcribe_eq_pipeline, h]
    simp [workSize, workDuration]

/-- Witness for C8: on a 1 MB undecodable asset the pipeline proceeds with
the original file (and indeed transcribes it directly). -/
theorem C8_preprocess_failure_degrades_witness :
    preprocess_audio envC8 false = none ∧
    transcribe_audio envC8
      = runPipeline envC8 envC8.origSize envC8.durOrig (processedWritten envC8 (aggFlag envC8)) :=
  ⟨(C8_preprocess_failure_degrades envC8).1 false rfl,
    (C8_preprocess_failure_degrades envC8).2 (by decide)⟩

/-- C9: when the working asset is oversized and decomposition yields zero
chunks, `transcribe_audio` returns null without issuing any remote call. -/
theorem C9_zero_chunks_null (env : AudioEnv)
    (hover : MAX_AUDIO_SIZE_MB * MB
      < workSize env (preprocess_audio env (aggFlag env)))
    (hempty : (split_audio_into_chunks env
        (workDuration env (preprocess_audio env (aggFlag env)))).returned = []) :
    (transcribe_audio env).result = none ∧
    (transcribe_audio env).chunkCallsMade = [] ∧
    (transcribe_audio env).directCallMade = false := by
  rw [transcribe_eq_pipeline,
    runPipeline_chunk_empty env _ _ _ hover (by rw [hempty]; rfl)]
  exact ⟨rfl, rfl, rfl⟩

/-- Witness for C9: a 26 MB undecodable asset of zero duration. -/
theorem C9_zero_chunks_null_witness :
    (transcribe_audio envC9).result = none ∧
    (transcribe_audio envC9).chunkCallsMade = [] ∧
    (transcribe_audio envC9).directCallMade = false :=
  C9_zero_chunks_null envC9 (by decide) (by decide)

end SpeechBot
